import Mathlib

/-!
Verification development for `load_data.py`, a one-shot CSV batch loader that
populates a `books` table, an `authors` table and a `book_author` join table
over a single shared database connection.

The embedding models the relational store as in-memory lists of rows, and the
psycopg2 connection as a pair of states: `pending` (statements executed since
the last commit, visible to the connection's own queries) and `committed`
(the durable state).  `conn.commit()` in psycopg2 commits the whole current
transaction of the connection, so it is modelled as copying `pending` into
`committed`.  When the process ends (or an exception aborts the loop and the
connection is closed without commit), only `committed` persists.

Python's `s.split(',')` and `s.strip()` are modelled by structurally
recursive functions over the character list of the string, matching Python's
semantics (`"".split(',') == [""]`; `strip` removes surrounding whitespace).
-/

namespace LoadData

/-- A row of the `authors` table: store-generated id plus the name column. -/
structure Author where
  author_id : Nat
  name : String
deriving DecidableEq, Repr

/-- A row of the `books` table, with the column names of the target schema.
All non-key columns are strings: the loader passes the CSV fields through
verbatim, with no type coercion of its own. -/
structure Book where
  book_id : Nat
  isbn13 : String
  publication_year : String
  title : String
  rating_avg : String
  rating_count : String
  image_url : String
  image_small_url : String
deriving DecidableEq, Repr

/-- The database state: the three tables plus the store's id generators. -/
structure DB where
  authors : List Author
  books : List Book
  book_author : List (Nat × Nat)
  nextAuthorId : Nat
  nextBookId : Nat
deriving DecidableEq, Repr

/-- The empty database. -/
def emptyDB : DB :=
  { authors := [], books := [], book_author := [], nextAuthorId := 0, nextBookId := 0 }

/-- The psycopg2 connection: `pending` is the state as seen by the
connection's own statements (current transaction included), `committed` is
what has been durably committed. -/
structure Conn where
  pending : DB
  committed : DB
deriving DecidableEq, Repr

/-- A freshly opened connection over a database state. -/
def Conn.open (db : DB) : Conn := { pending := db, committed := db }

/-- Model of psycopg2 `conn.commit()`: commits everything executed on the
connection since the last commit, whatever function issued the statements. -/
def Conn.commit (c : Conn) : Conn := { c with committed := c.pending }

/-- A parsed CSV row, keyed by the header names of the source file. -/
structure Row where
  isbn13 : String
  original_publication_year : String
  title : String
  average_rating : String
  ratings_count : String
  image_url : String
  small_image_url : String
  authors : String
deriving DecidableEq, Repr

/-- First row of an author list whose `name` column equals the argument,
projected to its id. -/
def lookupName (l : List Author) (name : String) : Option Nat :=
  (l.find? (fun a => decide (a.name = name))).map Author.author_id

/-- Model of `SELECT author_id FROM authors WHERE name = %s` followed by
`fetchone()`: first row whose `name` column equals the argument. -/
def findAuthor (db : DB) (name : String) : Option Nat :=
  lookupName db.authors name

/-- Model of `get_or_create_author` (lines 39-50 of `load_data.py`): look the
name up; if present return the stored id; otherwise insert a new author row
with the store-generated id, call `conn.commit()`, and return the new id. -/
def get_or_create_author (name : String) (c : Conn) : Nat × Conn :=
  match findAuthor c.pending name with
  | some id => (id, c)
  | none =>
      let id := c.pending.nextAuthorId
      let c₁ : Conn := { c with pending := { c.pending with
          authors := c.pending.authors ++ [{ author_id := id, name := name }],
          nextAuthorId := id + 1 } }
      (id, c₁.commit)

/-- Model of `INSERT INTO book_author ... ON CONFLICT (book_id, author_id)
DO NOTHING`: append the pair unless it is already present. -/
def insertBookAuthor (book_id author_id : Nat) (db : DB) : DB :=
  if (book_id, author_id) ∈ db.book_author then db
  else { db with book_author := db.book_author ++ [(book_id, author_id)] }

/-- The book row built by the `INSERT INTO books ...` statement: the seven
CSV fields are passed through verbatim, in the column order of the SQL. -/
def mkBook (id : Nat) (row : Row) : Book :=
  { book_id := id
    isbn13 := row.isbn13
    publication_year := row.original_publication_year
    title := row.title
    rating_avg := row.average_rating
    rating_count := row.ratings_count
    image_url := row.image_url
    image_small_url := row.small_image_url }

/-- Model of the `books` insert with `RETURNING book_id`: the generated id is
`db.nextBookId` and the row is appended. -/
def insertBook (row : Row) (db : DB) : DB :=
  { db with books := db.books ++ [mkBook db.nextBookId row],
            nextBookId := db.nextBookId + 1 }

/-- Python `str.split(',')` over the character list: splitting an empty
string yields `[""]`, and every comma separates (no escaping). -/
def splitCommaAux : List Char → List Char → List String
  | [], acc => [String.mk acc.reverse]
  | ch :: cs, acc =>
      if ch = ',' then String.mk acc.reverse :: splitCommaAux cs []
      else splitCommaAux cs (ch :: acc)

/-- Python `str.strip()`: drop whitespace from both ends. -/
def strip (s : String) : String :=
  String.mk (((s.data.dropWhile Char.isWhitespace).reverse.dropWhile
    Char.isWhitespace).reverse)

/-- Line 68 of `load_data.py`:
`[author.strip() for author in row['authors'].split(',')]`. -/
def splitAuthors (s : String) : List String :=
  (splitCommaAux s.data []).map strip

/-- The inner author loop of the ingestion body (lines 69-75): resolve each
name via `get_or_create_author`, then insert the association with the
conflict-ignoring policy. -/
def processAuthors (book_id : Nat) : List String → Conn → Conn
  | [], c => c
  | n :: ns, c =>
      let r := get_or_create_author n c
      let c₂ : Conn := { r.2 with pending := insertBookAuthor book_id r.1 r.2.pending }
      processAuthors book_id ns c₂

/-- One iteration of the ingestion loop (lines 57-76): insert the book,
capture the generated id, process the authors, then `conn.commit()`. -/
def processRow (row : Row) (c : Conn) : Conn :=
  let b := c.pending.nextBookId
  let c₁ : Conn := { c with pending := insertBook row c.pending }
  (processAuthors b (splitAuthors row.authors) c₁).commit

/-- The ingestion loop over all CSV rows, when no row raises. -/
def runRows : List Row → Conn → Conn
  | [], c => c
  | r :: rs, c => runRows rs (processRow r c)

/-- Outcome of the connection retry loop `connect_to_database`
(lines 13-32).  `sleeps` records the duration of every `time.sleep` call
performed, in order. -/
inductive ConnectOutcome where
  | connected (attempt : Nat) (sleeps : List Nat)
  | exited (code : Nat) (sleeps : List Nat)
  | fellThrough (sleeps : List Nat)
deriving DecidableEq, Repr

/-- The `for attempt in range(retries)` loop of `connect_to_database`,
recursing on the number of attempts still available (`remaining` is
`retries - attempt`): `ok i` tells whether the i-th `psycopg2.connect` call
succeeds.  On success return; on failure, if this was not the last attempt
(`attempt < retries - 1`, i.e. at least two attempts remained), sleep
`delay` and retry; on the last attempt `exit(1)`.  With `remaining = 0` the
`for` loop never ran and the function falls through. -/
def connectAux (ok : Nat → Bool) (delay : Nat) :
    Nat → Nat → List Nat → ConnectOutcome
  | 0, _, sleeps => .fellThrough sleeps
  | remaining + 1, attempt, sleeps =>
      if ok attempt then .connected attempt sleeps
      else if remaining = 0 then .exited 1 sleeps
      else connectAux ok delay remaining (attempt + 1) (sleeps ++ [delay])

/-- `connect_to_database()` with its default arguments `retries=5`,
`delay=5`. -/
def connect_to_database (ok : Nat → Bool) : ConnectOutcome :=
  connectAux ok 5 5 0 []

/-- The observable outcome of one run of the loader process. -/
structure RunOutcome where
  committedDB : DB
  exitCode : Nat
  loggedError : Option String
  teardownRan : Bool
deriving DecidableEq, Repr

/-- The ingestion loop when a row may raise: `err r = some e` means the
processing of row `r` raises an exception with text `e` (a storage or
parsing failure inside the per-row body).  The error carries the connection
state at the moment of the raise; nothing of the failed row is applied. -/
def runRowsE (err : Row → Option String) : List Row → Conn → Except (String × Conn) Conn
  | [], c => .ok c
  | r :: rs, c =>
      match err r with
      | some e => .error (e, c)
      | none => runRowsE err rs (processRow r c)

/-- The try/except of lines 54-80 plus the teardown of lines 82-85: a missing
CSV file or a row-level exception is caught at the top level and logged, the
cursor and connection are closed either way, and the process ends with exit
code 0.  Closing without commit discards `pending`; only `committed`
persists. -/
def runLoader (fileExists : Bool) (err : Row → Option String) (rows : List Row)
    (c : Conn) : RunOutcome :=
  if fileExists then
    match runRowsE err rows c with
    | .ok c₁ =>
        { committedDB := c₁.committed, exitCode := 0,
          loggedError := none, teardownRan := true }
    | .error (e, c₁) =>
        { committedDB := c₁.committed, exitCode := 0,
          loggedError := some ("An error occurred while loading data: " ++ e),
          teardownRan := true }
  else
    { committedDB := c.committed, exitCode := 0,
      loggedError := some "Error: books.csv not found", teardownRan := true }

/-- The whole process: connect with the default retry budget, then run the
loader; if `connect_to_database` exhausts its attempts it calls `exit(1)`, so
no ingestion and no teardown happen. -/
def main (ok : Nat → Bool) (fileExists : Bool) (err : Row → Option String)
    (rows : List Row) (initDB : DB) : RunOutcome :=
  match connect_to_database ok with
  | .connected _ _ => runLoader fileExists err rows (Conn.open initDB)
  | .exited code _ =>
      { committedDB := initDB, exitCode := code,
        loggedError := some "Failed to connect to the database",
        teardownRan := false }
  | .fellThrough _ =>
      { committedDB := initDB, exitCode := 1,
        loggedError := some "connection is None", teardownRan := false }

/-- Number of association inserts actually performed by the author loop of a
row, given the set `D` of names already associated to the book: one insert
per name not yet seen. -/
def newAssocCount (D : List String) : List String → Nat
  | [] => 0
  | n :: ns => if n ∈ D then newAssocCount D ns else newAssocCount (D ++ [n]) ns + 1

/-- Well-formedness of a database state: generated ids are below the
generators, author names and ids are duplicate-free, and every association
references an already-generated book id. -/
structure DB.WF (db : DB) : Prop where
  authorIdLt : ∀ a ∈ db.authors, a.author_id < db.nextAuthorId
  namesNodup : (db.authors.map Author.name).Nodup
  idsNodup : (db.authors.map Author.author_id).Nodup
  bookFstLt : ∀ p ∈ db.book_author, p.1 < db.nextBookId

/-! ### Concrete fixtures for witnesses and counterexamples -/

/-- A freshly opened connection on the empty database. -/
def emptyConn : Conn := Conn.open emptyDB

/-- A concrete CSV row with the two-author field from the spec's example. -/
def rowJane : Row :=
  { isbn13 := "9780000000001", original_publication_year := "1999",
    title := "Book One", average_rating := "4.50", ratings_count := "10",
    image_url := "large-one", small_image_url := "small-one",
    authors := "Jane Doe, John Smith" }

/-- A concrete CSV row whose authors field repeats the same name twice. -/
def rowDup : Row :=
  { isbn13 := "9780000000002", original_publication_year := "2001",
    title := "Book Two", average_rating := "3.00", ratings_count := "5",
    image_url := "large-two", small_image_url := "small-two",
    authors := "Jane Doe, Jane Doe" }

/-- A concrete CSV row whose authors field is the empty string. -/
def rowNoAuthors : Row :=
  { isbn13 := "9780000000003", original_publication_year := "2005",
    title := "Book Three", average_rating := "2.50", ratings_count := "7",
    image_url := "large-three", small_image_url := "small-three",
    authors := "" }

/-- A mid-row connection state over the empty database: the row's book
insert (line 60) has executed, but the per-row `conn.commit()` of line 76
has not yet run, so the book is pending and not committed. -/
def midRowConn : Conn :=
  { pending := insertBook rowJane emptyDB, committed := emptyDB }

/-- A concrete error oracle: processing the row titled "Book Two" raises an
exception with text "boom"; every other row processes cleanly. -/
def errBoom : Row → Option String :=
  fun row => if row.title = "Book Two" then some "boom" else none

/-! ### Lemmas about author lookup -/

theorem lookupName_eq_some {l : List Author} {n : String} {i : Nat}
    (h : lookupName l n = some i) :
    ∃ a ∈ l, a.name = n ∧ a.author_id = i := by
  rcases Option.map_eq_some'.mp h with ⟨a, ha, hid⟩
  refine ⟨a, List.mem_of_find?_eq_some ha, ?_, hid⟩
  have := List.find?_some ha
  simpa using this

theorem lookupName_eq_none {l : List Author} {n : String}
    (h : lookupName l n = none) : ∀ a ∈ l, a.name ≠ n := by
  have h' : l.find? (fun a => decide (a.name = n)) = none :=
    Option.map_eq_none'.mp h
  intro a ha
  have := List.find?_eq_none.mp h' a ha
  simpa using this

theorem lookupName_append_some {l : List Author} {n : String} {i : Nat}
    (h : lookupName l n = some i) (l₂ : List Author) :
    lookupName (l ++ l₂) n = some i := by
  rcases Option.map_eq_some'.mp h with ⟨a, ha, hid⟩
  unfold lookupName
  rw [List.find?_append, ha]
  simpa using hid

theorem lookupName_append_new {l : List Author} {n : String}
    (h : lookupName l n = none) (i : Nat) :
    lookupName (l ++ [{ author_id := i, name := n }]) n = some i := by
  have h' : l.find? (fun a => decide (a.name = n)) = none :=
    Option.map_eq_none'.mp h
  unfold lookupName
  rw [List.find?_append, h']
  simp

theorem findAuthor_inj {db : DB} (hwf : db.WF) {n₁ n₂ : String} {i : Nat}
    (h₁ : findAuthor db n₁ = some i) (h₂ : findAuthor db n₂ = some i) :
    n₁ = n₂ := by
  obtain ⟨a₁, ha₁, hn₁, hi₁⟩ := lookupName_eq_some h₁
  obtain ⟨a₂, ha₂, hn₂, hi₂⟩ := lookupName_eq_some h₂
  have : a₁ = a₂ :=
    List.inj_on_of_nodup_map hwf.idsNodup ha₁ ha₂ (by rw [hi₁, hi₂])
  rw [← hn₁, ← hn₂, this]

theorem findAuthor_lt {db : DB} (hwf : db.WF) {n : String} {i : Nat}
    (h : findAuthor db n = some i) : i < db.nextAuthorId := by
  obtain ⟨a, ha, _, hi⟩ := lookupName_eq_some h
  exact hi ▸ hwf.authorIdLt a ha

/-! ### Behaviour of `get_or_create_author` -/

/-- The database state written by `get_or_create_author` when the name is
absent: the new author row is appended and the id generator bumped. -/
def createAuthorDB (db : DB) (n : String) : DB :=
  { db with authors := db.authors ++ [{ author_id := db.nextAuthorId, name := n }],
            nextAuthorId := db.nextAuthorId + 1 }

theorem get_or_create_author_found {n : String} {c : Conn} {i : Nat}
    (h : findAuthor c.pending n = some i) :
    get_or_create_author n c = (i, c) := by
  unfold get_or_create_author
  rw [h]

theorem get_or_create_author_create {n : String} {c : Conn}
    (h : findAuthor c.pending n = none) :
    get_or_create_author n c =
      (c.pending.nextAuthorId,
       { pending := createAuthorDB c.pending n,
         committed := createAuthorDB c.pending n }) := by
  unfold get_or_create_author
  rw [h]
  rfl

/-- Framing and resolution facts about `get_or_create_author`, sufficient
for the per-row analysis: the books and associations of the pending state
are untouched, well-formedness is preserved, the returned id resolves the
name afterwards, and any previously resolvable name still resolves to the
same id. -/
theorem get_or_create_author_spec (n : String) (c : Conn)
    (hwf : c.pending.WF) :
    ((get_or_create_author n c).2.pending.books = c.pending.books) ∧
    ((get_or_create_author n c).2.pending.nextBookId = c.pending.nextBookId) ∧
    ((get_or_create_author n c).2.pending.book_author = c.pending.book_author) ∧
    (get_or_create_author n c).2.pending.WF ∧
    (findAuthor (get_or_create_author n c).2.pending n =
      some (get_or_create_author n c).1) ∧
    (∀ m i, findAuthor c.pending m = some i →
      findAuthor (get_or_create_author n c).2.pending m = some i) := by
  cases h : findAuthor c.pending n with
  | some i =>
      rw [get_or_create_author_found h]
      exact ⟨rfl, rfl, rfl, hwf, h, fun _ _ hm => hm⟩
  | none =>
      rw [get_or_create_author_create h]
      dsimp only [createAuthorDB]
      refine ⟨rfl, rfl, rfl, ?_, ?_, ?_⟩
      · constructor
        · intro a ha
          rcases List.mem_append.mp ha with ha' | ha'
          · exact Nat.lt_succ_of_lt (hwf.authorIdLt a ha')
          · simp at ha'
            simp [ha']
        · rw [List.map_append]
          refine hwf.namesNodup.append (by simp) ?_
          intro x hx hx₂
          simp only [List.map_cons, List.map_nil, List.mem_singleton] at hx₂
          rcases List.mem_map.mp hx with ⟨a, ha, rfl⟩
          exact lookupName_eq_none h a ha hx₂
        · rw [List.map_append]
          refine hwf.idsNodup.append (by simp) ?_
          intro x hx hx₂
          simp only [List.map_cons, List.map_nil, List.mem_singleton] at hx₂
          rcases List.mem_map.mp hx with ⟨a, ha, rfl⟩
          exact Nat.ne_of_lt (hwf.authorIdLt a ha) hx₂
        · exact hwf.bookFstLt
      · exact lookupName_append_new h _
      · intro m i hm
        exact lookupName_append_some hm _

/-- Unconditional framing: author resolution never touches the books or the
associations of the pending state. -/
theorem get_or_create_author_frame (n : String) (c : Conn) :
    (get_or_create_author n c).2.pending.books = c.pending.books ∧
    (get_or_create_author n c).2.pending.nextBookId = c.pending.nextBookId ∧
    (get_or_create_author n c).2.pending.book_author = c.pending.book_author := by
  unfold get_or_create_author
  cases h : findAuthor c.pending n <;> exact ⟨rfl, rfl, rfl⟩

/-! ### Behaviour of the conflict-ignoring association insert -/

@[simp] theorem insertBookAuthor_authors (b a : Nat) (db : DB) :
    (insertBookAuthor b a db).authors = db.authors := by
  unfold insertBookAuthor; split <;> rfl

@[simp] theorem insertBookAuthor_books (b a : Nat) (db : DB) :
    (insertBookAuthor b a db).books = db.books := by
  unfold insertBookAuthor; split <;> rfl

@[simp] theorem insertBookAuthor_nextAuthorId (b a : Nat) (db : DB) :
    (insertBookAuthor b a db).nextAuthorId = db.nextAuthorId := by
  unfold insertBookAuthor; split <;> rfl

@[simp] theorem insertBookAuthor_nextBookId (b a : Nat) (db : DB) :
    (insertBookAuthor b a db).nextBookId = db.nextBookId := by
  unfold insertBookAuthor; split <;> rfl

@[simp] theorem findAuthor_insertBookAuthor (b a : Nat) (db : DB) (n : String) :
    findAuthor (insertBookAuthor b a db) n = findAuthor db n := by
  unfold findAuthor
  rw [insertBookAuthor_authors]

theorem insertBookAuthor_of_mem {b a : Nat} {db : DB}
    (h : (b, a) ∈ db.book_author) : insertBookAuthor b a db = db := by
  unfold insertBookAuthor; rw [if_pos h]

theorem insertBookAuthor_of_not_mem {b a : Nat} {db : DB}
    (h : (b, a) ∉ db.book_author) :
    insertBookAuthor b a db =
      { db with book_author := db.book_author ++ [(b, a)] } := by
  unfold insertBookAuthor; rw [if_neg h]

/-! ### The author loop of one row -/

/-- Invariant-carrying specification of the inner author loop.  `D` is the
set of author names already linked to book `b` in the current transaction;
the loop performs exactly one association insert per name not already
covered, keeps the books table and the id generator untouched, and
preserves well-formedness. -/
theorem processAuthors_spec (b : Nat) (names : List String) :
    ∀ (c : Conn) (D : List String),
      c.pending.WF →
      b < c.pending.nextBookId →
      (∀ m ∈ D, ∃ i, findAuthor c.pending m = some i) →
      (∀ x, (b, x) ∈ c.pending.book_author ↔
        ∃ m ∈ D, findAuthor c.pending m = some x) →
      (processAuthors b names c).pending.WF ∧
      (processAuthors b names c).pending.books = c.pending.books ∧
      (processAuthors b names c).pending.nextBookId = c.pending.nextBookId ∧
      (processAuthors b names c).pending.book_author.length =
        c.pending.book_author.length + newAssocCount D names ∧
      (∀ m ∈ D ++ names,
        ∃ i, findAuthor (processAuthors b names c).pending m = some i) ∧
      (∀ x, (b, x) ∈ (processAuthors b names c).pending.book_author ↔
        ∃ m ∈ D ++ names,
          findAuthor (processAuthors b names c).pending m = some x) := by
  induction names with
  | nil =>
      intro c D hwf hb hD hiff
      refine ⟨hwf, rfl, rfl, by simp [processAuthors, newAssocCount], ?_, ?_⟩
      · simpa using hD
      · simpa using hiff
  | cons n ns ih =>
      intro c D hwf hb hD hiff
      obtain ⟨hgb, hgnb, hgba, hgwf, hgres, hgstab⟩ :=
        get_or_create_author_spec n c hwf
      have hstep : processAuthors b (n :: ns) c =
          processAuthors b ns
            { (get_or_create_author n c).2 with
              pending := insertBookAuthor b (get_or_create_author n c).1
                (get_or_create_author n c).2.pending } := rfl
      by_cases hn : n ∈ D
      · -- the name was already linked: the resolver finds it and the
        -- association insert is a no-op
        obtain ⟨i, hi⟩ := hD n hn
        have hfound := get_or_create_author_found hi
        have hmem : (b, i) ∈ c.pending.book_author := (hiff i).mpr ⟨n, hn, hi⟩
        have hc₂ : processAuthors b (n :: ns) c = processAuthors b ns c := by
          rw [hstep, hfound]
          dsimp only
          rw [insertBookAuthor_of_mem hmem]
        obtain ⟨ih₁, ih₂, ih₃, ih₄, ih₅, ih₆⟩ := ih c D hwf hb hD hiff
        rw [hc₂]
        refine ⟨ih₁, ih₂, ih₃, ?_, ?_, ?_⟩
        · rw [ih₄]
          simp [newAssocCount, hn]
        · intro m hm
          rcases List.mem_append.mp hm with hm' | hm'
          · exact ih₅ m (List.mem_append.mpr (Or.inl hm'))
          · rcases List.mem_cons.mp hm' with rfl | hm''
            · exact ih₅ m (List.mem_append.mpr (Or.inl hn))
            · exact ih₅ m (List.mem_append.mpr (Or.inr hm''))
        · intro x
          rw [ih₆ x]
          constructor
          · rintro ⟨m, hm, hmx⟩
            rcases List.mem_append.mp hm with hm' | hm'
            · exact ⟨m, List.mem_append.mpr (Or.inl hm'), hmx⟩
            · exact ⟨m, List.mem_append.mpr (Or.inr (List.mem_cons_of_mem n hm')), hmx⟩
          · rintro ⟨m, hm, hmx⟩
            rcases List.mem_append.mp hm with hm' | hm'
            · exact ⟨m, List.mem_append.mpr (Or.inl hm'), hmx⟩
            · rcases List.mem_cons.mp hm' with rfl | hm''
              · exact ⟨m, List.mem_append.mpr (Or.inl hn), hmx⟩
              · exact ⟨m, List.mem_append.mpr (Or.inr hm''), hmx⟩
      · -- a name not yet linked: exactly one association insert happens
        have hnotmem : (b, (get_or_create_author n c).1) ∉ c.pending.book_author := by
          intro hmem
          obtain ⟨m, hmD, hm⟩ := (hiff _).mp hmem
          cases hfc : findAuthor c.pending n with
          | some j =>
              have : (get_or_create_author n c).1 = j := by
                rw [get_or_create_author_found hfc]
              rw [this] at hm
              exact hn (findAuthor_inj hwf hm hfc ▸ hmD)
          | none =>
              have : (get_or_create_author n c).1 = c.pending.nextAuthorId := by
                rw [get_or_create_author_create hfc]
              rw [this] at hm
              exact absurd (findAuthor_lt hwf hm) (lt_irrefl _)
        rw [← hgba] at hnotmem
        have hins := insertBookAuthor_of_not_mem hnotmem
        -- the connection state after resolving and inserting this name
        have hc₂ba : (insertBookAuthor b (get_or_create_author n c).1
            (get_or_create_author n c).2.pending).book_author =
            c.pending.book_author ++ [(b, (get_or_create_author n c).1)] := by
          rw [hins]
          dsimp only
          rw [hgba]
        have hwf₂ : (insertBookAuthor b (get_or_create_author n c).1
            (get_or_create_author n c).2.pending).WF := by
          refine ⟨?_, ?_, ?_, ?_⟩
          · rw [insertBookAuthor_authors, insertBookAuthor_nextAuthorId]
            exact hgwf.authorIdLt
          · rw [insertBookAuthor_authors]
            exact hgwf.namesNodup
          · rw [insertBookAuthor_authors]
            exact hgwf.idsNodup
          · rw [insertBookAuthor_nextBookId, hc₂ba, hgnb]
            intro p hp
            rcases List.mem_append.mp hp with hp' | hp'
            · exact hwf.bookFstLt p hp'
            · simp at hp'
              rw [hp']
              exact hb
        have hD₂ : ∀ m ∈ D ++ [n],
            ∃ i, findAuthor (insertBookAuthor b (get_or_create_author n c).1
              (get_or_create_author n c).2.pending) m = some i := by
          intro m hm
          rw [findAuthor_insertBookAuthor]
          rcases List.mem_append.mp hm with hm' | hm'
          · obtain ⟨i, hi⟩ := hD m hm'
            exact ⟨i, hgstab m i hi⟩
          · simp at hm'
            rw [hm']
            exact ⟨_, hgres⟩
        have hiff₂ : ∀ x, (b, x) ∈ (insertBookAuthor b (get_or_create_author n c).1
            (get_or_create_author n c).2.pending).book_author ↔
            ∃ m ∈ D ++ [n],
              findAuthor (insertBookAuthor b (get_or_create_author n c).1
                (get_or_create_author n c).2.pending) m = some x := by
          intro x
          rw [hc₂ba]
          constructor
          · intro hx
            rcases List.mem_append.mp hx with hx' | hx'
            · obtain ⟨m, hmD, hm⟩ := (hiff x).mp hx'
              exact ⟨m, List.mem_append.mpr (Or.inl hmD), by
                rw [findAuthor_insertBookAuthor]; exact hgstab m x hm⟩
            · simp at hx'
              refine ⟨n, List.mem_append.mpr (Or.inr (by simp)), ?_⟩
              rw [findAuthor_insertBookAuthor, hx']
              exact hgres
          · rintro ⟨m, hm, hmx⟩
            rw [findAuthor_insertBookAuthor] at hmx
            rcases List.mem_append.mp hm with hm' | hm'
            · obtain ⟨i, hi⟩ := hD m hm'
              have : x = i := by
                have := hgstab m i hi
                rw [hmx] at this
                exact (Option.some.injEq _ _).mp this
              subst this
              exact List.mem_append.mpr (Or.inl ((hiff x).mpr ⟨m, hm', hi⟩))
            · simp at hm'
              rw [hm'] at hmx
              have hx : x = (get_or_create_author n c).1 := by
                rw [hgres] at hmx
                exact ((Option.some.injEq _ _).mp hmx).symm
              rw [hx]
              exact List.mem_append.mpr (Or.inr (by simp))
        have hb₂ : b < (insertBookAuthor b (get_or_create_author n c).1
            (get_or_create_author n c).2.pending).nextBookId := by
          rw [insertBookAuthor_nextBookId, hgnb]
          exact hb
        obtain ⟨ih₁, ih₂, ih₃, ih₄, ih₅, ih₆⟩ :=
          ih { (get_or_create_author n c).2 with
               pending := insertBookAuthor b (get_or_create_author n c).1
                 (get_or_create_author n c).2.pending }
            (D ++ [n]) hwf₂ hb₂ hD₂ hiff₂
        rw [hstep]
        have happ : (D ++ [n]) ++ ns = D ++ n :: ns := by simp
        refine ⟨ih₁, ?_, ?_, ?_, ?_, ?_⟩
        · rw [ih₂]
          dsimp only
          rw [insertBookAuthor_books, hgb]
        · rw [ih₃]
          dsimp only
          rw [insertBookAuthor_nextBookId, hgnb]
        · rw [ih₄]
          dsimp only
          rw [hc₂ba]
          simp [newAssocCount, hn]
          omega
        · rw [← happ]
          exact ih₅
        · intro x
          rw [ih₆ x, ← happ]

/-- The number of association inserts performed by the author loop equals
the number of distinct names not already covered by `D`. -/
theorem newAssocCount_eq_card (l : List String) :
    ∀ D : List String, newAssocCount D l = (l.toFinset \ D.toFinset).card := by
  induction l with
  | nil => intro D; simp [newAssocCount]
  | cons n ns ih =>
      intro D
      by_cases hn : n ∈ D
      · simp only [newAssocCount]
        rw [if_pos hn, ih D, List.toFinset_cons]
        rw [Finset.insert_sdiff_of_mem _ (List.mem_toFinset.mpr hn)]
      · simp only [newAssocCount]
        rw [if_neg hn, ih (D ++ [n]), List.toFinset_cons, List.toFinset_append]
        have h1 : (D.toFinset ∪ [n].toFinset) = insert n D.toFinset := by
          rw [show [n].toFinset = ({n} : Finset String) by simp,
            Finset.union_comm, ← Finset.insert_eq]
        rw [h1, Finset.sdiff_insert,
          Finset.insert_sdiff_of_not_mem _ (by simp [hn])]
        by_cases hT : n ∈ ns.toFinset \ D.toFinset
        · rw [Finset.card_erase_of_mem hT, Finset.insert_eq_self.mpr hT]
          have : 1 ≤ (ns.toFinset \ D.toFinset).card :=
            Finset.card_pos.mpr ⟨n, hT⟩
          omega
        · rw [Finset.erase_eq_of_not_mem hT, Finset.card_insert_of_not_mem hT]

theorem newAssocCount_nil_left (l : List String) :
    newAssocCount [] l = l.toFinset.card := by
  rw [newAssocCount_eq_card]
  simp

/-! ### One iteration of the ingestion loop -/

/-- Specification of one row's processing from a well-formed state: the book
row is appended with the store-generated id, exactly one association row is
added per distinct trimmed author name, well-formedness is preserved, and
the final per-row `conn.commit()` leaves nothing uncommitted. -/
theorem processRow_spec (row : Row) (c : Conn) (hwf : c.pending.WF) :
    (processRow row c).pending.WF ∧
    (processRow row c).pending.books =
      c.pending.books ++ [mkBook c.pending.nextBookId row] ∧
    (processRow row c).pending.book_author.length =
      c.pending.book_author.length + (splitAuthors row.authors).toFinset.card ∧
    (processRow row c).committed = (processRow row c).pending := by
  have hwf₁ : (insertBook row c.pending).WF := by
    refine ⟨hwf.authorIdLt, hwf.namesNodup, hwf.idsNodup, ?_⟩
    intro p hp
    exact Nat.lt_succ_of_lt (hwf.bookFstLt p hp)
  have hb₁ : c.pending.nextBookId < (insertBook row c.pending).nextBookId :=
    Nat.lt_succ_self _
  have hD₁ : ∀ m ∈ ([] : List String),
      ∃ i, findAuthor (insertBook row c.pending) m = some i := by simp
  have hiff₁ : ∀ x, (c.pending.nextBookId, x) ∈ (insertBook row c.pending).book_author ↔
      ∃ m ∈ ([] : List String),
        findAuthor (insertBook row c.pending) m = some x := by
    intro x
    constructor
    · intro hx
      exact absurd (hwf.bookFstLt _ hx) (lt_irrefl _)
    · rintro ⟨m, hm, _⟩
      cases hm
  obtain ⟨h1, h2, h3, h4, _h5, _h6⟩ :=
    processAuthors_spec c.pending.nextBookId (splitAuthors row.authors)
      { c with pending := insertBook row c.pending } [] hwf₁ hb₁ hD₁ hiff₁
  refine ⟨h1, ?_, ?_, rfl⟩
  · rw [show (processRow row c).pending =
      (processAuthors c.pending.nextBookId (splitAuthors row.authors)
        { c with pending := insertBook row c.pending }).pending from rfl, h2]
    rfl
  · rw [show (processRow row c).pending =
      (processAuthors c.pending.nextBookId (splitAuthors row.authors)
        { c with pending := insertBook row c.pending }).pending from rfl, h4,
      newAssocCount_nil_left]
    rfl

/-! ### The full ingestion loop -/

theorem runRows_spec (rows : List Row) :
    ∀ c : Conn, c.pending.WF →
      (runRows rows c).pending.WF ∧
      (runRows rows c).pending.books.length =
        c.pending.books.length + rows.length ∧
      (runRows rows c).pending.book_author.length =
        c.pending.book_author.length +
          (rows.map (fun r => (splitAuthors r.authors).toFinset.card)).sum := by
  induction rows with
  | nil =>
      intro c h
      exact ⟨h, by simp [runRows], by simp [runRows]⟩
  | cons r rs ih =>
      intro c hwf
      obtain ⟨h1, h2, h3, _h4⟩ := processRow_spec r c hwf
      obtain ⟨g1, g2, g3⟩ := ih (processRow r c) h1
      have hstep : runRows (r :: rs) c = runRows rs (processRow r c) := rfl
      refine ⟨by rw [hstep]; exact g1, ?_, ?_⟩
      · rw [hstep, g2, h2]
        simp
        omega
      · rw [hstep, g3, h3]
        simp
        omega

/-- Unconditional framing of the author loop: the books table and the book
id generator are untouched, and every association row added carries the book
id the loop was given. -/
theorem processAuthors_frame (b : Nat) (names : List String) :
    ∀ c : Conn, ∃ extra : List (Nat × Nat),
      (processAuthors b names c).pending.books = c.pending.books ∧
      (processAuthors b names c).pending.nextBookId = c.pending.nextBookId ∧
      (processAuthors b names c).pending.book_author =
        c.pending.book_author ++ extra ∧
      ∀ p ∈ extra, p.1 = b := by
  induction names with
  | nil =>
      intro c
      exact ⟨[], rfl, rfl, by simp [processAuthors], by simp⟩
  | cons n ns ih =>
      intro c
      obtain ⟨hgb, hgnb, hgba⟩ := get_or_create_author_frame n c
      have hstep : processAuthors b (n :: ns) c =
          processAuthors b ns
            { (get_or_create_author n c).2 with
              pending := insertBookAuthor b (get_or_create_author n c).1
                (get_or_create_author n c).2.pending } := rfl
      obtain ⟨extra, h1, h2, h3, h4⟩ :=
        ih { (get_or_create_author n c).2 with
             pending := insertBookAuthor b (get_or_create_author n c).1
               (get_or_create_author n c).2.pending }
      by_cases hmem : (b, (get_or_create_author n c).1) ∈
          (get_or_create_author n c).2.pending.book_author
      · refine ⟨extra, ?_, ?_, ?_, h4⟩
        · rw [hstep, h1]
          dsimp only
          rw [insertBookAuthor_books, hgb]
        · rw [hstep, h2]
          dsimp only
          rw [insertBookAuthor_nextBookId, hgnb]
        · rw [hstep, h3]
          dsimp only
          rw [insertBookAuthor_of_mem hmem]
          rw [hgba]
      · refine ⟨(b, (get_or_create_author n c).1) :: extra, ?_, ?_, ?_, ?_⟩
        · rw [hstep, h1]
          dsimp only
          rw [insertBookAuthor_books, hgb]
        · rw [hstep, h2]
          dsimp only
          rw [insertBookAuthor_nextBookId, hgnb]
        · rw [hstep, h3]
          dsimp only
          rw [insertBookAuthor_of_not_mem hmem]
          dsimp only
          rw [hgba, List.append_assoc]
          rfl
        · intro p hp
          rcases List.mem_cons.mp hp with rfl | hp'
          · rfl
          · exact h4 p hp'

/-! ### The connection retry loop -/

theorem connectAux_connected (ok : Nat → Bool) (delay : Nat) :
    ∀ (remaining attempt : Nat) (sleeps : List Nat) (j : Nat),
      attempt ≤ j → j < attempt + remaining → ok j = true →
      (∀ i, attempt ≤ i → i < j → ok i = false) →
      connectAux ok delay remaining attempt sleeps =
        .connected j (sleeps ++ List.replicate (j - attempt) delay) := by
  intro remaining
  induction remaining with
  | zero =>
      intro attempt sleeps j h1 h2 _ _
      omega
  | succ rem ih =>
      intro attempt sleeps j h1 h2 hok hmin
      by_cases hj : attempt = j
      · subst hj
        simp [connectAux, hok]
      · have hfail : ok attempt = false := hmin attempt le_rfl (by omega)
        have hrem : rem ≠ 0 := by omega
        simp only [connectAux, hfail, Bool.false_eq_true, if_false, if_neg hrem]
        rw [ih (attempt + 1) (sleeps ++ [delay]) j (by omega) (by omega) hok
          (fun i hi1 hi2 => hmin i (by omega) hi2)]
        congr 1
        rw [List.append_assoc]
        congr 1
        have hsub : j - attempt = (j - (attempt + 1)) + 1 := by omega
        rw [hsub, List.replicate_succ]
        rfl

theorem connectAux_exhausted (ok : Nat → Bool) (delay : Nat) :
    ∀ (remaining attempt : Nat) (sleeps : List Nat),
      remaining ≠ 0 →
      (∀ i, attempt ≤ i → i < attempt + remaining → ok i = false) →
      connectAux ok delay remaining attempt sleeps =
        .exited 1 (sleeps ++ List.replicate (remaining - 1) delay) := by
  intro remaining
  induction remaining with
  | zero =>
      intro _ _ h
      exact absurd rfl h
  | succ rem ih =>
      intro attempt sleeps _ hall
      have hfail : ok attempt = false := hall attempt le_rfl (by omega)
      by_cases hrem : rem = 0
      · subst hrem
        simp [connectAux, hfail]
      · simp only [connectAux, hfail, Bool.false_eq_true, if_false, if_neg hrem]
        rw [ih (attempt + 1) (sleeps ++ [delay]) hrem
          (fun i hi1 hi2 => hall i (by omega) (by omega))]
        congr 1
        rw [List.append_assoc]
        congr 1
        have hsub : rem + 1 - 1 = (rem - 1) + 1 := by omega
        rw [hsub, List.replicate_succ]
        rfl

/-! ### The fallible ingestion loop -/

theorem runRowsE_clean (err : Row → Option String) (rows : List Row) :
    ∀ c : Conn, (∀ r ∈ rows, err r = none) →
      runRowsE err rows c = .ok (runRows rows c) := by
  induction rows with
  | nil => intro c _; rfl
  | cons r rs ih =>
      intro c h
      have h0 : err r = none := h r (by simp)
      show (match err r with
        | some e => Except.error (e, c)
        | none => runRowsE err rs (processRow r c)) = _
      rw [h0]
      exact ih _ (fun r' hr' => h r' (by simp [hr']))

theorem runRowsE_error_at (err : Row → Option String) (rows₁ : List Row) :
    ∀ (c : Conn) (r : Row) (e : String) (rows₂ : List Row),
      (∀ r' ∈ rows₁, err r' = none) → err r = some e →
      runRowsE err (rows₁ ++ r :: rows₂) c =
        .error (e, runRows rows₁ c) := by
  induction rows₁ with
  | nil =>
      intro c r e rows₂ _ he
      show (match err r with
        | some e => Except.error (e, c)
        | none => runRowsE err rows₂ (processRow r c)) = _
      rw [he]
      rfl
  | cons r₀ rs ih =>
      intro c r e rows₂ h he
      have h0 : err r₀ = none := h r₀ (by simp)
      show (match err r₀ with
        | some e => Except.error (e, c)
        | none => runRowsE err (rs ++ r :: rows₂) (processRow r₀ c)) = _
      rw [h0]
      exact ih _ r e rows₂ (fun r' hr' => h r' (by simp [hr'])) he

/-! ### Remaining small helpers -/

theorem emptyDB_WF : emptyDB.WF :=
  ⟨by simp [emptyDB], by simp [emptyDB], by simp [emptyDB], by simp [emptyDB]⟩

theorem processRow_eq (r : Row) (c : Conn) :
    processRow r c =
      (processAuthors c.pending.nextBookId (splitAuthors r.authors)
        { c with pending := insertBook r c.pending }).commit := rfl

/-- Full evaluation of the author loop over a single fresh name: the author
row is created and committed, and one association row is appended. -/
theorem processAuthors_single_new (b : Nat) (n : String) (c : Conn)
    (hfresh : findAuthor c.pending n = none)
    (hnm : (b, c.pending.nextAuthorId) ∉ c.pending.book_author) :
    processAuthors b [n] c =
      { pending :=
          { authors := c.pending.authors ++
              [{ author_id := c.pending.nextAuthorId, name := n }],
            books := c.pending.books,
            book_author := c.pending.book_author ++ [(b, c.pending.nextAuthorId)],
            nextAuthorId := c.pending.nextAuthorId + 1,
            nextBookId := c.pending.nextBookId },
        committed := createAuthorDB c.pending n } := by
  show ({ (get_or_create_author n c).2 with
      pending := insertBookAuthor b (get_or_create_author n c).1
        (get_or_create_author n c).2.pending } : Conn) = _
  rw [get_or_create_author_create hfresh]
  dsimp only
  rw [insertBookAuthor_of_not_mem
    (show (b, c.pending.nextAuthorId) ∉ (createAuthorDB c.pending n).book_author
      from hnm)]
  rfl

/-! ### Claim theorems -/

/-- C4: author resolution is idempotent.  Calling `get_or_create_author`
twice with the same name returns the same identifier both times and leaves
the connection of the first call untouched (so the identifier of a stored
name is stable across calls), and the pair of calls creates exactly one
`authors` row when the name was absent and none when it was present, the
name being stored verbatim with no normalization. -/
theorem C4_author_resolution_idempotent (name : String) (c : Conn) :
    (get_or_create_author name (get_or_create_author name c).2).1 =
      (get_or_create_author name c).1 ∧
    (get_or_create_author name (get_or_create_author name c).2).2 =
      (get_or_create_author name c).2 ∧
    (get_or_create_author name c).2.pending.authors =
      (if findAuthor c.pending name = none
       then c.pending.authors ++
         [{ author_id := c.pending.nextAuthorId, name := name }]
       else c.pending.authors) := by
  cases h : findAuthor c.pending name with
  | some i =>
      rw [get_or_create_author_found h, get_or_create_author_found h,
        if_neg (by simp [h])]
      exact ⟨rfl, rfl, rfl⟩
  | none =>
      rw [get_or_create_author_create h]
      have hres : findAuthor
          ({ pending := createAuthorDB c.pending name,
             committed := createAuthorDB c.pending name } : Conn).pending name =
          some c.pending.nextAuthorId := lookupName_append_new h _
      rw [get_or_create_author_found hres]
      refine ⟨rfl, rfl, ?_⟩
      simp only [h, createAuthorDB, if_pos]

/-- C5: the conflict-ignoring association insert is idempotent: inserting
the same (book, author) pair twice equals inserting it once and leaves
exactly one matching row in the association table.  In particular, the
duplicate association attempts caused by a duplicate author name within one
CSV row leave a single association row. -/
theorem C5_association_pair_at_most_once (b a : Nat) (db : DB)
    (hcount : List.countP (fun p => decide (p = (b, a))) db.book_author ≤ 1) :
    insertBookAuthor b a (insertBookAuthor b a db) = insertBookAuthor b a db ∧
    List.countP (fun p => decide (p = (b, a)))
      (insertBookAuthor b a (insertBookAuthor b a db)).book_author = 1 ∧
    (processRow rowDup emptyConn).pending.book_author = [(0, 0)] := by
  refine ⟨?_, ?_, by decide⟩ <;>
    by_cases hmem : (b, a) ∈ db.book_author
  · rw [insertBookAuthor_of_mem hmem, insertBookAuthor_of_mem hmem]
  · rw [insertBookAuthor_of_not_mem hmem]
    exact insertBookAuthor_of_mem (by simp)
  · rw [insertBookAuthor_of_mem hmem, insertBookAuthor_of_mem hmem]
    have hpos : 0 < List.countP (fun p => decide (p = (b, a))) db.book_author :=
      List.countP_pos_iff.mpr ⟨(b, a), hmem, by simp⟩
    omega
  · rw [insertBookAuthor_of_not_mem hmem,
      insertBookAuthor_of_mem (show (b, a) ∈
        ({ db with book_author := db.book_author ++ [(b, a)] } : DB).book_author
        by simp)]
    have hz : List.countP (fun p => decide (p = (b, a))) db.book_author = 0 :=
      List.countP_eq_zero.mpr (fun p hp => by
        simp only [decide_eq_true_eq]
        intro hpe
        exact hmem (hpe ▸ hp))
    show List.countP _ (db.book_author ++ [(b, a)]) = 1
    rw [List.countP_append, hz]
    simp

/-- C6: the authors field is split on commas and each name trimmed: the
spec's example row produces exactly the two author resolutions
"Jane Doe" and "John Smith" with no residual whitespace, and two
association rows for the freshly inserted book. -/
theorem C6_multi_author_split :
    splitAuthors "Jane Doe, John Smith" = ["Jane Doe", "John Smith"] ∧
    (processRow rowJane emptyConn).pending.authors =
      [{ author_id := 0, name := "Jane Doe" },
       { author_id := 1, name := "John Smith" }] ∧
    (processRow rowJane emptyConn).pending.book_author = [(0, 0), (0, 1)] := by
  decide

/-- C9: the book insert writes the seven CSV fields verbatim into the
schema's columns in order (`isbn13` to `isbn13`,
`original_publication_year` to `publication_year`, `title` to `title`,
`average_rating` to `rating_avg`, `ratings_count` to `rating_count`,
`image_url` to `image_url`, `small_image_url` to `image_small_url`), with
the store-generated identifier, and every association row added by the row
carries that identifier. -/
theorem C9_book_fields_verbatim (r : Row) (c : Conn) :
    ∃ extra : List (Nat × Nat),
      (processRow r c).pending.books =
        c.pending.books ++
          [{ book_id := c.pending.nextBookId,
             isbn13 := r.isbn13,
             publication_year := r.original_publication_year,
             title := r.title,
             rating_avg := r.average_rating,
             rating_count := r.ratings_count,
             image_url := r.image_url,
             image_small_url := r.small_image_url }] ∧
      (processRow r c).pending.book_author = c.pending.book_author ++ extra ∧
      ∀ p ∈ extra, p.1 = c.pending.nextBookId := by
  obtain ⟨extra, h1, h2, h3, h4⟩ :=
    processAuthors_frame c.pending.nextBookId (splitAuthors r.authors)
      { c with pending := insertBook r c.pending }
  refine ⟨extra, ?_, ?_, h4⟩
  · rw [show (processRow r c).pending =
      (processAuthors c.pending.nextBookId (splitAuthors r.authors)
        { c with pending := insertBook r c.pending }).pending from rfl, h1]
    rfl
  · rw [show (processRow r c).pending =
      (processAuthors c.pending.nextBookId (splitAuthors r.authors)
        { c with pending := insertBook r c.pending }).pending from rfl, h3]
    rfl

/-- C1 counterexample: commits on the shared psycopg2 connection are
connection-wide, not per-operation.  From a mid-row state in which the
row's book insert is pending and nothing is committed, the commit performed
inside `get_or_create_author` (line 47) also commits the enclosing book
insert — before the end-of-row commit of line 76 ever runs — so the author
insert does not commit "separately and independently of the enclosing book
transaction", and the book is not committed only "as one transaction
boundary at the end of the row's processing". -/
theorem C1_independent_commit_counterexample :
    midRowConn.committed.books = [] ∧
    (get_or_create_author "Jane Doe" midRowConn).2.committed.books =
      [mkBook 0 rowJane] := by
  decide

/-- C1 amended: each row's processing ends with `conn.commit()`, so at the
end of the row everything pending — book and associations — is committed;
and when `get_or_create_author` creates an author it also issues
`conn.commit()`, which commits the whole pending transaction: the new
author row persists, but so does the enclosing row's pending book insert,
since commits are connection-wide rather than independent per operation. -/
theorem C1_commit_boundaries (r : Row) (n : String) (c : Conn)
    (hfresh : findAuthor c.pending n = none) :
    (processRow r c).committed = (processRow r c).pending ∧
    (get_or_create_author n c).2.committed =
      (get_or_create_author n c).2.pending ∧
    (get_or_create_author n c).2.committed.authors =
      c.pending.authors ++ [{ author_id := c.pending.nextAuthorId, name := n }] ∧
    (get_or_create_author n c).2.committed.books = c.pending.books := by
  refine ⟨rfl, ?_, ?_, ?_⟩ <;> rw [get_or_create_author_create hfresh] <;> rfl

theorem C1_commit_boundaries_witness :
    findAuthor midRowConn.pending "Jane Doe" = none ∧
    ((processRow rowJane midRowConn).committed =
        (processRow rowJane midRowConn).pending ∧
     (get_or_create_author "Jane Doe" midRowConn).2.committed =
        (get_or_create_author "Jane Doe" midRowConn).2.pending ∧
     (get_or_create_author "Jane Doe" midRowConn).2.committed.authors =
        midRowConn.pending.authors ++ [{ author_id := 0, name := "Jane Doe" }] ∧
     (get_or_create_author "Jane Doe" midRowConn).2.committed.books =
        midRowConn.pending.books) :=
  ⟨by decide, C1_commit_boundaries rowJane "Jane Doe" midRowConn (by decide)⟩

theorem C5_association_pair_at_most_once_witness :
    List.countP (fun p => decide (p = (0, 1))) emptyDB.book_author ≤ 1 ∧
    (insertBookAuthor 0 1 (insertBookAuthor 0 1 emptyDB) =
        insertBookAuthor 0 1 emptyDB ∧
     List.countP (fun p => decide (p = (0, 1)))
        (insertBookAuthor 0 1 (insertBookAuthor 0 1 emptyDB)).book_author = 1 ∧
     (processRow rowDup emptyConn).pending.book_author = [(0, 0)]) :=
  ⟨by decide, C5_association_pair_at_most_once 0 1 emptyDB (by decide)⟩

/-- C10: an empty authors field is not zero author mentions: splitting the
empty string on a comma yields the single empty-string name, so the row
performs exactly one author resolution with the empty name, creating an
authors row whose name is the empty string when absent, and links the book
to it with one association row. -/
theorem C10_empty_authors_field (r : Row) (c : Conn)
    (ha : r.authors = "") (hfresh : findAuthor c.pending "" = none)
    (hwf : c.pending.WF) :
    splitAuthors "" = [""] ∧
    (processRow r c).pending.authors =
      c.pending.authors ++ [{ author_id := c.pending.nextAuthorId, name := "" }] ∧
    (processRow r c).pending.book_author =
      c.pending.book_author ++
        [(c.pending.nextBookId, c.pending.nextAuthorId)] := by
  have hrow : processRow r c =
      (processAuthors c.pending.nextBookId [""]
        { c with pending := insertBook r c.pending }).commit := by
    rw [processRow_eq, ha, show splitAuthors "" = [""] by decide]
  have hnm : (c.pending.nextBookId,
      ({ c with pending := insertBook r c.pending } : Conn).pending.nextAuthorId) ∉
      ({ c with pending := insertBook r c.pending } : Conn).pending.book_author := by
    intro hmem
    exact absurd (hwf.bookFstLt _ hmem) (lt_irrefl _)
  have hsingle := processAuthors_single_new c.pending.nextBookId ""
    { c with pending := insertBook r c.pending } hfresh hnm
  refine ⟨by decide, ?_, ?_⟩ <;> rw [hrow, hsingle] <;> rfl

/-- C3: a clean run over N rows inserts exactly one book row per CSV row
with no duplicate-ISBN check — so running the loader twice over the same
rows adds 2N book rows — and adds exactly one association row per distinct
trimmed author name of each row, i.e. one per unique
(book, trimmed-author-name) pair, each row's book being freshly
generated. -/
theorem C3_row_counts (rows : List Row) (c : Conn) (hwf : c.pending.WF) :
    (runRows rows c).pending.books.length =
      c.pending.books.length + rows.length ∧
    (runRows rows c).pending.book_author.length =
      c.pending.book_author.length +
        (rows.map (fun r => (splitAuthors r.authors).toFinset.card)).sum ∧
    (runRows rows (runRows rows c)).pending.books.length =
      c.pending.books.length + 2 * rows.length := by
  obtain ⟨h1, h2, h3⟩ := runRows_spec rows c hwf
  obtain ⟨_, g2, _⟩ := runRows_spec rows (runRows rows c) h1
  refine ⟨h2, h3, ?_⟩
  rw [g2, h2]
  omega

theorem C3_row_counts_witness :
    emptyConn.pending.WF ∧
    ((runRows [rowJane, rowNoAuthors] emptyConn).pending.books.length =
        emptyConn.pending.books.length + [rowJane, rowNoAuthors].length ∧
     (runRows [rowJane, rowNoAuthors] emptyConn).pending.book_author.length =
        emptyConn.pending.book_author.length +
          ([rowJane, rowNoAuthors].map
            (fun r => (splitAuthors r.authors).toFinset.card)).sum ∧
     (runRows [rowJane, rowNoAuthors]
        (runRows [rowJane, rowNoAuthors] emptyConn)).pending.books.length =
        emptyConn.pending.books.length + 2 * [rowJane, rowNoAuthors].length) :=
  ⟨emptyDB_WF, C3_row_counts [rowJane, rowNoAuthors] emptyConn emptyDB_WF⟩

/-- C7: a failure raised inside the per-row body is caught only at the top
level: it is logged with the raw error text, the whole remaining loop is
abandoned (no later row is processed), the rows committed by earlier
iterations remain committed, teardown still runs, and the process exits
with status 0. -/
theorem C7_row_failure_semantics (rows₁ rows₂ : List Row) (r : Row)
    (err : Row → Option String) (e : String) (c : Conn)
    (hok : ∀ r' ∈ rows₁, err r' = none) (herr : err r = some e) :
    runLoader true err (rows₁ ++ r :: rows₂) c =
      { committedDB := (runRows rows₁ c).committed, exitCode := 0,
        loggedError := some ("An error occurred while loading data: " ++ e),
        teardownRan := true } := by
  have hE := runRowsE_error_at err rows₁ c r e rows₂ hok herr
  simp only [runLoader, hE, if_true]

theorem C7_row_failure_semantics_witness :
    ((∀ r' ∈ [rowJane], errBoom r' = none) ∧ errBoom rowDup = some "boom") ∧
    runLoader true errBoom ([rowJane] ++ rowDup :: [rowNoAuthors]) emptyConn =
      { committedDB := (runRows [rowJane] emptyConn).committed, exitCode := 0,
        loggedError := some ("An error occurred while loading data: " ++ "boom"),
        teardownRan := true } :=
  ⟨⟨by decide, by decide⟩,
    C7_row_failure_semantics [rowJane] [rowNoAuthors] rowDup errBoom "boom"
      emptyConn (by decide) (by decide)⟩

/-- C8: when the CSV file does not exist, the loader catches the condition
at the top level of ingestion, logs it, makes no book or author insertions
(the committed database is unchanged), still runs teardown, and exits with
status 0. -/
theorem C8_missing_file (ok : Nat → Bool) (err : Row → Option String)
    (rows : List Row) (db : DB) (h0 : ok 0 = true) :
    main ok false err rows db =
      { committedDB := db, exitCode := 0,
        loggedError := some "Error: books.csv not found",
        teardownRan := true } := by
  have hc : connect_to_database ok = .connected 0 [] := by
    have h := connectAux_connected ok 5 5 0 [] 0 (Nat.le_refl 0) (by omega) h0
      (fun i _ hi2 => absurd hi2 (Nat.not_lt_zero i))
    simpa using h
  unfold main
  rw [hc]
  rfl

theorem C8_missing_file_witness :
    (fun _ : Nat => true) 0 = true ∧
    main (fun _ => true) false (fun _ => none) [] emptyDB =
      { committedDB := emptyDB, exitCode := 0,
        loggedError := some "Error: books.csv not found",
        teardownRan := true } :=
  ⟨rfl, C8_missing_file (fun _ => true) (fun _ => none) [] emptyDB rfl⟩

/-- C2: with the default budget of 5 attempts and fixed delay 5, whenever
some attempt among the first 5 succeeds the loop returns a connection at
the first succeeding attempt — having slept exactly once per failed attempt,
each sleep the fixed delay (no exponential backoff, no jitter) — and the
process proceeds to ingestion; when all 5 attempts fail the loop sleeps the
fixed delay between the attempts only (4 sleeps) and the process exits with
the non-zero status 1, performing no ingestion and no teardown. -/
theorem C2_retry_and_fail_fast (ok okAll : Nat → Bool) (fe : Bool)
    (err : Row → Option String) (rows : List Row) (db : DB)
    (hsucc : ∃ i, i < 5 ∧ ok i = true)
    (hfail : ∀ i, i < 5 → okAll i = false) :
    (∃ j, j < 5 ∧ ok j = true ∧
      connect_to_database ok = .connected j (List.replicate j 5) ∧
      main ok fe err rows db = runLoader fe err rows (Conn.open db)) ∧
    connect_to_database okAll = .exited 1 (List.replicate 4 5) ∧
    (main okAll fe err rows db).exitCode = 1 ∧
    (main okAll fe err rows db).committedDB = db ∧
    (main okAll fe err rows db).teardownRan = false := by
  have hex : connect_to_database okAll = .exited 1 (List.replicate 4 5) := by
    have h := connectAux_exhausted okAll 5 5 0 [] (by omega)
      (fun i _ hi2 => hfail i (by omega))
    simpa using h
  have hmainAll : main okAll fe err rows db =
      { committedDB := db, exitCode := 1,
        loggedError := some "Failed to connect to the database",
        teardownRan := false } := by
    unfold main
    rw [hex]
  refine ⟨?_, hex, by rw [hmainAll], by rw [hmainAll], by rw [hmainAll]⟩
  have hP : ∃ n, ok n = true := by
    obtain ⟨i, _, hi⟩ := hsucc
    exact ⟨i, hi⟩
  have hjok : ok (Nat.find hP) = true := Nat.find_spec hP
  have hjmin : ∀ i, i < Nat.find hP → ok i = false := by
    intro i hi
    have hne := Nat.find_min hP hi
    cases hb : ok i with
    | false => rfl
    | true => exact absurd hb hne
  have hjlt : Nat.find hP < 5 := by
    obtain ⟨i, hi5, hi⟩ := hsucc
    exact Nat.lt_of_le_of_lt (Nat.find_min' hP hi) hi5
  have hc : connect_to_database ok =
      .connected (Nat.find hP) (List.replicate (Nat.find hP) 5) := by
    have h := connectAux_connected ok 5 5 0 [] (Nat.find hP)
      (Nat.zero_le _) (by omega) hjok (fun i _ hi2 => hjmin i hi2)
    simpa using h
  refine ⟨Nat.find hP, hjlt, hjok, hc, ?_⟩
  unfold main
  rw [hc]

theorem C2_retry_and_fail_fast_witness :
    ((∃ i, i < 5 ∧ (fun i => decide (i = 4)) i = true) ∧
      (∀ i, i < 5 → (fun _ : Nat => false) i = false)) ∧
    ((∃ j, j < 5 ∧ (fun i => decide (i = 4)) j = true ∧
        connect_to_database (fun i => decide (i = 4)) =
          .connected j (List.replicate j 5) ∧
        main (fun i => decide (i = 4)) true (fun _ => none) [] emptyDB =
          runLoader true (fun _ => none) [] (Conn.open emptyDB)) ∧
     connect_to_database (fun _ => false) = .exited 1 (List.replicate 4 5) ∧
     (main (fun _ => false) true (fun _ => none) [] emptyDB).exitCode = 1 ∧
     (main (fun _ => false) true (fun _ => none) [] emptyDB).committedDB =
        emptyDB ∧
     (main (fun _ => false) true (fun _ => none) [] emptyDB).teardownRan =
        false) :=
  ⟨⟨⟨4, by decide, by decide⟩, fun _ _ => rfl⟩,
    C2_retry_and_fail_fast (fun i => decide (i = 4)) (fun _ => false) true
      (fun _ => none) [] emptyDB ⟨4, by decide, by decide⟩ (fun _ _ => rfl)⟩

theorem C10_empty_authors_field_witness :
    (rowNoAuthors.authors = "" ∧ findAuthor emptyConn.pending "" = none ∧
      emptyConn.pending.WF) ∧
    (splitAuthors "" = [""] ∧
     (processRow rowNoAuthors emptyConn).pending.authors =
       emptyConn.pending.authors ++
         [{ author_id := emptyConn.pending.nextAuthorId, name := "" }] ∧
     (processRow rowNoAuthors emptyConn).pending.book_author =
       emptyConn.pending.book_author ++
         [(emptyConn.pending.nextBookId, emptyConn.pending.nextAuthorId)]) :=
  ⟨⟨rfl, by decide, emptyDB_WF⟩,
    C10_empty_authors_field rowNoAuthors emptyConn rfl (by decide) emptyDB_WF⟩

end LoadData
